import Mathlib

/-!
Verification of the lazy-locker secrets vault core against its
specification.  Byte strings are modelled as `List Nat`; Rust calls that
can fail are modelled with the `Outcome` type below, which distinguishes
a recoverable `anyhow` error from an unrecoverable panic (such as an
out-of-bounds slice index).  Randomness (nonces, salts) and the current
time are passed as explicit arguments.
-/

namespace LazyLocker

/-- Result of running a Rust function: a value, a recoverable error
carrying its message, or a panic (process abort). -/
inductive Outcome (α : Type) where
  | ok : α → Outcome α
  | err : String → Outcome α
  | panicked : Outcome α
deriving DecidableEq, Repr

/-- Sequencing of fallible Rust calls (the question-mark operator):
errors and panics propagate. -/
def Outcome.bind {α β : Type} : Outcome α → (α → Outcome β) → Outcome β
  | .ok a, f => f a
  | .err e, _ => .err e
  | .panicked, _ => .panicked

/-! ## AEAD model

`src/src/core/crypto.rs` delegates to the external `aes_gcm` crate, which
is not part of this repository.  Modelled from the spec: AES-256-GCM, an
AEAD over a 256-bit key with a 96-bit (12-byte) nonce and a 128-bit
(16-byte) authentication tag, is modelled as an idealized AEAD: a
keystream mask (counter-mode style) applied byte by byte, followed by a
16-byte tag computed from the key, the nonce and the ciphertext.  The
model keeps the shape used by the repository: sealing maps a plaintext to
`ciphertext ++ tag`, and opening verifies the tag before unmasking. -/

/-- Keystream byte `i` for the given key and nonce. -/
def ksByte (key nonce : List Nat) (i : Nat) : Nat :=
  (key.sum + 2 * nonce.sum + 3 * i + 7) % 256

/-- XOR the byte stream with the keystream, starting at position `i`. -/
def aeadMask (key nonce : List Nat) : Nat → List Nat → List Nat
  | _, [] => []
  | i, b :: bs => (b ^^^ ksByte key nonce i) :: aeadMask key nonce (i + 1) bs

/-- The 16-byte authentication tag over key, nonce and ciphertext. -/
def aeadTag (key nonce ct : List Nat) : List Nat :=
  (List.range 16).map
    (fun i => (key.sum + 5 * nonce.sum + 11 * ct.sum + 13 * i + 3) % 256)

/-- Seal a plaintext: ciphertext followed by its tag. -/
def aeadSeal (key nonce pt : List Nat) : List Nat :=
  let ct := aeadMask key nonce 0 pt
  ct ++ aeadTag key nonce ct

/-- Open a sealed blob: check that it is long enough to carry a tag,
verify the tag, then unmask.  `none` models an AEAD decryption error. -/
def aeadOpen (key nonce blob : List Nat) : Option (List Nat) :=
  if blob.length < 16 then none
  else
    let ct := blob.take (blob.length - 16)
    let tag := blob.drop (blob.length - 16)
    if tag = aeadTag key nonce ct then some (aeadMask key nonce 0 ct) else none

/-! ## `src/src/core/crypto.rs` -/

/-- `encrypt` from `src/core/crypto.rs`: generate a fresh 12-byte nonce
(passed here explicitly), seal, and return `nonce ++ ciphertext ++ tag`.
`Key::<Aes256Gcm>::from_slice` panics unless the key is exactly 32
bytes. -/
def encrypt (data key nonce : List Nat) : Outcome (List Nat) :=
  if key.length ≠ 32 then .panicked
  else .ok (nonce ++ aeadSeal key nonce data)

/-- `decrypt` from `src/core/crypto.rs`: `Key::from_slice` panics unless
the key is 32 bytes, `data.split_at(12)` panics when the input is shorter
than 12 bytes, and an AEAD failure becomes the anyhow error
"Decryption error". -/
def decrypt (data key : List Nat) : Outcome (List Nat) :=
  if key.length ≠ 32 then .panicked
  else if data.length < 12 then .panicked
  else
    match aeadOpen key (data.take 12) (data.drop 12) with
    | some pt => .ok pt
    | none => .err "Decryption error"

/-! ## Lemmas about the AEAD model -/

/-- Concrete 32-byte key used by witnesses. -/
def wKey : List Nat := List.replicate 32 0

/-- Concrete 12-byte nonce used by witnesses. -/
def wNonce : List Nat := List.replicate 12 0

/-- Modelled from the spec: the byte encoding of a string. -/
def utf8Encode (s : String) : List Nat := s.data.map Char.toNat

/-- Modelled from the spec: fallible decoding of bytes back to text. -/
def utf8Decode (bs : List Nat) : Option String :=
  if bs.all (fun b => decide (Nat.isValidChar b)) then
    some (String.mk (bs.map Char.ofNat))
  else none

/-- `Secret` from `src/core/store.rs`: a named record with AEAD
ciphertext bytes and an optional expiry timestamp (seconds since the
Unix epoch). -/
structure Secret where
  name : String
  encryptedValue : List Nat
  expiresAt : Option Int
deriving DecidableEq, Repr

/-- `Secret::is_expired`: true when an expiry is set and the current
time (passed explicitly) is strictly greater than it. -/
def Secret.isExpired (s : Secret) (now : Int) : Bool :=
  match s.expiresAt with
  | some e => decide (e < now)
  | none => false

/-- `Secret::days_until_expiration`: `(expires_at - now) / 86400` with
the i64 division of Rust, which truncates toward zero (`Int.tdiv`);
`none` when no expiry is set. -/
def Secret.daysUntilExpiration (s : Secret) (now : Int) : Option Int :=
  match s.expiresAt with
  | some e => some (Int.tdiv (e - now) 86400)
  | none => none

/-! ### Association-list model of `HashMap<String, V>` -/

/-- `HashMap::get`: the value stored under a key. -/
def assocLookup {α : Type} (m : List (String × α)) (k : String) : Option α :=
  match m.find? (fun p => decide (p.1 = k)) with
  | some p => some p.2
  | none => none

/-- `HashMap::insert`: bind a key to a value, replacing any previous
binding. -/
def assocInsert {α : Type} (m : List (String × α)) (k : String) (v : α) :
    List (String × α) :=
  (k, v) :: m.filter (fun p => decide (p.1 ≠ k))

/-- `HashMap::remove`: drop the binding for a key, if any. -/
def assocRemove {α : Type} (m : List (String × α)) (k : String) :
    List (String × α) :=
  m.filter (fun p => decide (p.1 ≠ k))

/-- `SecretsStore` from `src/core/store.rs`: the name-to-secret map and
the remembered file path (`#[serde(skip)]`, so the path is never
serialized). -/
structure SecretsStore where
  secrets : List (String × Secret)
  path : Option String
deriving DecidableEq, Repr

/-- `SecretsStore::new`: empty map, no path. -/
def SecretsStore.new : SecretsStore := ⟨[], none⟩

/-! ### Serialization model

Modelled from the spec: the JSON (de)serialization of the cleartext
store comes from the external `serde_json` crate.  It is modelled as an
injective encoding of the secrets map into a one-element byte list with
a computable inverse; the `path` field is skipped as in the source. -/

instance charEncodable : Encodable Char :=
  Encodable.ofLeftInverse Char.toNat Char.ofNat Char.ofNat_toNat

instance stringEncodable : Encodable String :=
  Encodable.ofEquiv (List Char)
    ⟨String.data, String.mk, fun s => by cases s; rfl, fun l => rfl⟩

instance secretEncodable : Encodable Secret :=
  Encodable.ofEquiv (String × List Nat × Option Int)
    ⟨fun s => (s.name, s.encryptedValue, s.expiresAt),
     fun p => ⟨p.1, p.2.1, p.2.2⟩,
     fun s => by cases s; rfl, fun p => rfl⟩

/-- Modelled from the spec: `serde_json::to_vec` on the cleartext store. -/
def serializeStore (st : SecretsStore) : List Nat :=
  [Encodable.encode st.secrets]

/-- Modelled from the spec: `serde_json::from_slice` back to the secrets
map; fails on bytes that are not an encoding. -/
def deserializeStore (bs : List Nat) : Option (List (String × Secret)) :=
  match bs with
  | [n] => Encodable.decode n
  | _ => none

/-- The filesystem: a map from paths to file contents (bytes). -/
abbrev Fs : Type := String → Option (List Nat)

/-- `fs::write`: replace the contents stored at a path. -/
def Fs.write (fs : Fs) (p : String) (c : List Nat) : Fs :=
  fun q => if q = p then some c else fs q

/-- The `secrets.json` path inside a locker directory. -/
def sjPath (dir : String) : String := dir ++ "/secrets.json"

/-! ### `SecretsStore` operations -/

/-- `SecretsStore::load`: if `dir/secrets.json` exists, read it, decrypt
with the key and parse; otherwise return an empty store bound to that
path.  The second component lists the store files this call touched. -/
def storeLoad (fs : Fs) (dir : String) (key : List Nat) :
    Outcome SecretsStore × List String :=
  let p := sjPath dir
  match fs p with
  | some data =>
    (match decrypt data key with
     | .ok dec =>
       match deserializeStore dec with
       | some m => .ok ⟨m, some p⟩
       | none => .err "invalid store JSON"
     | .err e => .err e
     | .panicked => .panicked,
     [p])
  | none => (.ok ⟨[], some p⟩, [p])

/-- `SecretsStore::save`: serialize the map, encrypt with the key and a
fresh nonce, write the blob to `dir/secrets.json`. -/
def storeSave (st : SecretsStore) (dir : String) (key nonce : List Nat)
    (fs : Fs) : Outcome Fs :=
  match encrypt (serializeStore st) key nonce with
  | .ok blob => .ok (Fs.write fs (sjPath dir) blob)
  | .err e => .err e
  | .panicked => .panicked

/-- `SecretsStore::add_secret`: encrypt the value, compute
`expires_at = now + days * 86400` when days are supplied, insert or
replace the entry, then save. -/
def addSecret (st : SecretsStore) (name value : String)
    (expirationDays : Option Nat) (dir : String) (key vNonce sNonce : List Nat)
    (now : Int) (fs : Fs) : Outcome (SecretsStore × Fs) :=
  (encrypt (utf8Encode value) key vNonce).bind fun ev =>
    let expiresAt := expirationDays.map (fun days => now + (days : Int) * 86400)
    let sec : Secret := ⟨name, ev, expiresAt⟩
    let st2 : SecretsStore := ⟨assocInsert st.secrets name sec, st.path⟩
    (storeSave st2 dir key sNonce fs).bind fun fs2 => .ok (st2, fs2)

/-- `SecretsStore::delete_secret`: remove the entry (a missing name is
not an error), then save. -/
def deleteSecret (st : SecretsStore) (name dir : String)
    (key sNonce : List Nat) (fs : Fs) : Outcome (SecretsStore × Fs) :=
  let st2 : SecretsStore := ⟨assocRemove st.secrets name, st.path⟩
  (storeSave st2 dir key sNonce fs).bind fun fs2 => .ok (st2, fs2)

/-- Decrypt one stored ciphertext to text: `decrypt` then
`String::from_utf8`, as inlined in both `decrypt_secret` and
`decrypt_all`. -/
def decryptValue (sec : Secret) (key : List Nat) : Outcome String :=
  (decrypt sec.encryptedValue key).bind fun bs =>
    match utf8Decode bs with
    | some v => .ok v
    | none => .err "invalid utf-8"

/-- `SecretsStore::decrypt_secret` (called `decrypt_one` in the spec):
look the name up, decrypt its ciphertext to UTF-8 text. -/
def decryptSecret (st : SecretsStore) (name : String) (key : List Nat) :
    Outcome String :=
  match assocLookup st.secrets name with
  | some sec => decryptValue sec key
  | none => .err "Secret not found"

/-- The loop body of `SecretsStore::decrypt_all`: decrypt each entry in
turn, inserting `secret.name` into the result map; the first failure
aborts the whole call. -/
def decryptAllGo (key : List Nat) (acc : List (String × String)) :
    List (String × Secret) → Outcome (List (String × String))
  | [] => .ok acc
  | (_, sec) :: rest =>
    (decryptValue sec key).bind fun v =>
      decryptAllGo key (assocInsert acc sec.name v) rest

/-- `SecretsStore::decrypt_all`: decrypt every entry into a
name-to-plaintext map. -/
def decryptAll (st : SecretsStore) (key : List Nat) :
    Outcome (List (String × String)) :=
  decryptAllGo key [] st.secrets

/-- Insertion into a by-name sorted list of secrets. -/
def insertByName (s : Secret) : List Secret → List Secret
  | [] => [s]
  | t :: ts => if s.name ≤ t.name then s :: t :: ts else t :: insertByName s ts

/-- `SecretsStore::list_secrets`: the stored secrets sorted by name
ascending (insertion sort model of `sort_by`). -/
def listSecrets (st : SecretsStore) : List Secret :=
  st.secrets.foldr (fun p acc => insertByName p.2 acc) []

/-! ### Association-list lemmas -/

/-- One editing step on the store, as issued by the CLI or the editor:
either `add_secret` (with its value nonce, store nonce and timestamp) or
`delete_secret` (with its store nonce). -/
inductive StoreOp where
  | add (name value : String) (expirationDays : Option Nat) (now : Int)
      (vNonce sNonce : List Nat)
  | del (name : String) (sNonce : List Nat)

/-- Run one operation against the in-memory store and the filesystem. -/
def applyOp (dir : String) (key : List Nat) (p : SecretsStore × Fs) :
    StoreOp → Outcome (SecretsStore × Fs)
  | .add name value days now vN sN => addSecret p.1 name value days dir key vN sN now p.2
  | .del name sN => deleteSecret p.1 name dir key sN p.2

/-- Run a whole sequence of operations. -/
def applyOps (dir : String) (key : List Nat) (init : SecretsStore × Fs)
    (ops : List StoreOp) : Outcome (SecretsStore × Fs) :=
  ops.foldl (fun acc op => acc.bind (fun p => applyOp dir key p op)) (.ok init)

/-- `AgentState`: the in-memory key, loaded store, start instant
(modelled in whole seconds of monotonic time), TTL in hours, and the
shutdown flag. -/
structure AgentState where
  key : List Nat
  store : SecretsStore
  startedAt : Nat
  ttlHours : Nat
  shouldStop : Bool
deriving DecidableEq, Repr

/-- `AgentRequest`: the five actions of the line-delimited protocol. -/
inductive AgentRequest where
  | ping
  | getSecrets
  | getSecret (name : String)
  | list
  | shutdown
deriving DecidableEq, Repr

/-- The `data` payload of an ok response. -/
inductive RespData where
  | pingData (uptimeSecs ttlRemainingSecs : Nat)
  | secretsData (m : List (String × String))
  | valueData (v : String)
  | namesData (ns : List String)
  | messageData (msg : String)
deriving DecidableEq, Repr

/-- The response envelope: ok with data, or error with a message. -/
inductive AgentResponse where
  | ok (data : RespData)
  | error (message : String)
deriving DecidableEq, Repr

/-- `process_request` from `src/core/agent.rs`: under the state mutex,
first reject and set `should_stop` when the elapsed time exceeds the
TTL, otherwise dispatch on the action.  The outer `Outcome` records
whether the handler returned at all: `.panicked` models a handler
thread panic (no response is written), and carries no store file access
at all — the function reads and writes only the in-memory state. -/
def processRequest (req : AgentRequest) (st : AgentState) (now : Nat) :
    Outcome AgentResponse × AgentState :=
  if now - st.startedAt > st.ttlHours * 3600 then
    (.ok (.error "Session expired"), { st with shouldStop := true })
  else
    match req with
    | .ping =>
      (.ok (.ok (.pingData (now - st.startedAt)
        (st.ttlHours * 3600 - (now - st.startedAt)))), st)
    | .getSecrets =>
      (match decryptAll st.store st.key with
       | .ok m => .ok (.ok (.secretsData m))
       | .err e => .ok (.error ("Decryption error: " ++ e))
       | .panicked => .panicked,
       st)
    | .getSecret name =>
      (match decryptAll st.store st.key with
       | .ok m =>
         match assocLookup m name with
         | some v => .ok (.ok (.valueData v))
         | none => .ok (.error ("Secret not found: " ++ name))
       | .err e => .ok (.error ("Decryption error: " ++ e))
       | .panicked => .panicked,
       st)
    | .list =>
      (.ok (.ok (.namesData ((listSecrets st.store).map Secret.name))), st)
    | .shutdown =>
      (.ok (.ok (.messageData "Agent stopped")), { st with shouldStop := true })

/-! ## C6: session expiry -/

/-- Ciphertext of the value "x" under the witness key and nonce, exactly
as `encrypt` produces it. -/
def goodCipher : List Nat := wNonce ++ aeadSeal wKey wNonce (utf8Encode "x")

/-- A 28-byte blob that is not a valid ciphertext under the witness key
(its tag does not verify). -/
def badCipher : List Nat := List.replicate 28 0

/-- A store whose entry "A" decrypts fine while entry "B" does not. -/
def cStore : SecretsStore :=
  ⟨[("A", ⟨"A", goodCipher, none⟩), ("B", ⟨"B", badCipher, none⟩)], none⟩

/-- Agent state loaded with `cStore`, well within its TTL. -/
def cAgent : AgentState := ⟨wKey, cStore, 0, 8, false⟩

/-- A store holding only the well-formed entry "A". -/
def wStoreGood : SecretsStore := ⟨[("A", ⟨"A", goodCipher, none⟩)], none⟩

/-- Agent state loaded with `wStoreGood`, well within its TTL. -/
def wAgentGood : AgentState := ⟨wKey, wStoreGood, 0, 8, false⟩

/-- Modelled from the spec: the pieces of the external `argon2` crate
used by `src/core/init.rs`. -/
structure Argon2Model where
  /-- `SaltString::from_b64`: validate the stored salt text. -/
  parseSalt : String → Option String
  /-- `SaltString::decode_b64`: the raw 16 salt bytes. -/
  decodeSalt : String → Option (List Nat)
  /-- `PasswordHash::new`: validate the stored PHC hash text. -/
  parseHash : String → Option String
  /-- `Argon2::verify_password passphrase hash`. -/
  verify : String → String → Bool
  /-- `Argon2::hash_password_into passphrase saltBytes`: the 32-byte key. -/
  derive : String → List Nat → List Nat
  /-- `Argon2::hash_password(passphrase, salt).to_string()`. -/
  hashPassword : String → String → String

/-- The `salt` file inside a locker directory. -/
def saltPath (dir : String) : String := dir ++ "/salt"

/-- The `hash` file inside a locker directory. -/
def hashPath (dir : String) : String := dir ++ "/hash"

/-- `fs::read_to_string`: read a file and decode it as text; `none`
models both a missing file and an encoding failure. -/
def readToString (fs : Fs) (p : String) : Option String :=
  (fs p).bind utf8Decode

/-- `Locker::load_key` from `src/core/init.rs`: read `salt`, parse it,
read `hash`, parse it, verify the passphrase (failing with the
"Incorrect passphrase" error), then decode the salt bytes and derive
the 32-byte key.  The second component lists the files read, in
order. -/
def loadKey (a : Argon2Model) (fs : Fs) (dir pass : String) :
    Outcome (List Nat) × List String :=
  match readToString fs (saltPath dir) with
  | none => (.err "IoError", [saltPath dir])
  | some saltStr =>
    match a.parseSalt saltStr with
    | none => (.err "Salt error", [saltPath dir])
    | some salt =>
      match readToString fs (hashPath dir) with
      | none => (.err "IoError", [saltPath dir, hashPath dir])
      | some hashStr =>
        match a.parseHash hashStr with
        | none => (.err "Hash error", [saltPath dir, hashPath dir])
        | some expectedHash =>
          if a.verify pass expectedHash then
            match a.decodeSalt salt with
            | none => (.err "Salt decoding error", [saltPath dir, hashPath dir])
            | some saltBytes =>
              (.ok (a.derive pass saltBytes), [saltPath dir, hashPath dir])
          else
            (.err "Incorrect passphrase", [saltPath dir, hashPath dir])

/-- `Locker::init_key` from `src/core/init.rs`: generate a salt (passed
explicitly), write `salt` and `hash`, derive the key. -/
def initKey (a : Argon2Model) (fs : Fs) (dir pass freshSalt : String) :
    Outcome (List Nat × Fs) :=
  let fs1 := Fs.write fs (saltPath dir) (utf8Encode freshSalt)
  let hash := a.hashPassword pass freshSalt
  let fs2 := Fs.write fs1 (hashPath dir) (utf8Encode hash)
  match a.decodeSalt freshSalt with
  | none => .err "Salt decoding error"
  | some saltBytes => .ok (a.derive pass saltBytes, fs2)

/-- `Locker::init_or_load_with_passphrase`: load the key when the salt
file exists, initialize the locker otherwise.  Returns the key outcome,
the (possibly updated) filesystem, and the files read. -/
def initOrLoadWithPassphrase (a : Argon2Model) (fs : Fs)
    (dir pass freshSalt : String) : Outcome (List Nat) × Fs × List String :=
  if (fs (saltPath dir)).isSome then
    let r := loadKey a fs dir pass
    (r.1, fs, r.2)
  else
    match initKey a fs dir pass freshSalt with
    | .ok (key, fs2) => (.ok key, fs2, [])
    | .err e => (.err e, fs, [])
    | .panicked => (.panicked, fs, [])

/-- `cmd_token_get` from `src/core/cli.rs`: open the locker with the
passphrase, load the store, look the token up, refuse expired tokens,
decrypt and decode the value (output formatting elided: the result is
the printed plaintext).  The trace lists every locker file read. -/
def cmdTokenGet (a : Argon2Model) (fs : Fs) (dir name pass freshSalt : String)
    (now : Int) : Outcome String × Fs × List String :=
  match initOrLoadWithPassphrase a fs dir pass freshSalt with
  | (.ok key, fs1, ev1) =>
    let r := storeLoad fs1 dir key
    let ev := ev1 ++ r.2
    match r.1 with
    | .ok store =>
      match assocLookup store.secrets name with
      | none => (.err ("Token not found: " ++ name), fs1, ev)
      | some sec =>
        if sec.isExpired now then (.err ("Token expired: " ++ name), fs1, ev)
        else
          match decryptValue sec key with
          | .ok v => (.ok v, fs1, ev)
          | .err e => (.err e, fs1, ev)
          | .panicked => (.panicked, fs1, ev)
    | .err e => (.err e, fs1, ev)
    | .panicked => (.panicked, fs1, ev)
  | (.err e, fs1, ev1) => (.err e, fs1, ev1)
  | (.panicked, fs1, ev1) => (.panicked, fs1, ev1)

/-! ## C3: wrong passphrase is rejected before the store is touched -/

/-- A concrete Argon2 model for the C3 witness: parsing is the identity,
verification rejects everything. -/
def wArgon2 : Argon2Model :=
  ⟨fun s => some s, fun _ => some (List.replicate 16 0), fun s => some s,
   fun _ _ => false, fun _ _ => List.replicate 32 0, fun _ _ => "hash"⟩

/-- A filesystem holding an initialized locker: salt, hash and a store
blob. -/
def wLockerFs : Fs :=
  fun p =>
    if p = saltPath "d" then some (utf8Encode "salt")
    else if p = hashPath "d" then some (utf8Encode "hash")
    else if p = sjPath "d" then some [0]
    else none

/-- `str::trim`: drop whitespace from both ends, on the character
list. -/
def trimChars (cs : List Char) : List Char :=
  ((cs.dropWhile Char.isWhitespace).reverse.dropWhile Char.isWhitespace).reverse

/-- Split a character list at every newline character. -/
def splitNl : List Char → List (List Char)
  | [] => [[]]
  | c :: rest =>
    if c = '\n' then [] :: splitNl rest
    else
      match splitNl rest with
      | l :: ls => (c :: l) :: ls
      | [] => [[c]]

/-- Drop the carriage return ending a segment of a CRLF line. -/
def stripCr (cs : List Char) : List Char :=
  if cs.getLast? = some '\r' then cs.dropLast else cs

/-- `str::lines`: split at newlines, dropping the optional final line
ending and a trailing carriage return on each line. -/
def rustLines (s : String) : List (List Char) :=
  let parts := splitNl s.data
  (if parts.getLast? = some [] then parts.dropLast else parts).map stripCr

/-- The loop body of `parse_env_format` for one raw line: trim the
line, skip blanks and comment lines, split at the first equals sign,
trim the key and the value, strip one layer of matching double or
single quotes — the slice `value[1..value.len()-1]` panics when the
trimmed value is a single quote character — and insert the pair when
the key is nonempty. -/
def parseEnvLine (secrets : List (String × String)) (rawLine : List Char) :
    Outcome (List (String × String)) :=
  let line := trimChars rawLine
  if line.isEmpty then .ok secrets
  else if line.head? = some '#' then .ok secrets
  else
    match line.findIdx? (fun c => decide (c = '=')) with
    | none => .ok secrets
    | some eqPos =>
      let key := trimChars (line.take eqPos)
      let value := trimChars (line.drop (eqPos + 1))
      let stripped : Outcome (List Char) :=
        if (value.head? = some '"' ∧ value.getLast? = some '"')
            ∨ (value.head? = some (Char.ofNat 39) ∧
               value.getLast? = some (Char.ofNat 39)) then
          if value.length = 1 then .panicked
          else .ok ((value.drop 1).dropLast)
        else .ok value
      stripped.bind fun v =>
        if key.isEmpty then .ok secrets
        else .ok (assocInsert secrets (String.mk key) (String.mk v))

/-- `parse_env_format` from `src/core/cli.rs`: fold the line parser
over the lines of the input. -/
def parseEnvFormat (content : String) : Outcome (List (String × String)) :=
  (rustLines content).foldl
    (fun acc l => acc.bind (fun m => parseEnvLine m l)) (.ok [])

/-! ## Theorems -/

theorem aeadMask_length (key nonce : List Nat) (i : Nat) (bs : List Nat) :
    (aeadMask key nonce i bs).length = bs.length := by
  induction bs generalizing i with
  | nil => rfl
  | cons b bs ih => simp [aeadMask, ih]

theorem aeadMask_involutive (key nonce : List Nat) (i : Nat) (bs : List Nat) :
    aeadMask key nonce i (aeadMask key nonce i bs) = bs := by
  induction bs generalizing i with
  | nil => rfl
  | cons b bs ih =>
    simp only [aeadMask, ih, List.cons.injEq, and_true]
    rw [Nat.xor_assoc, Nat.xor_self, Nat.xor_zero]

theorem aeadTag_length (key nonce ct : List Nat) :
    (aeadTag key nonce ct).length = 16 := by
  simp [aeadTag]

theorem aeadOpen_aeadSeal (key nonce pt : List Nat) :
    aeadOpen key nonce (aeadSeal key nonce pt) = some pt := by
  have hct := aeadMask_length key nonce 0 pt
  have htag := aeadTag_length key nonce (aeadMask key nonce 0 pt)
  have hlen : (aeadSeal key nonce pt).length = pt.length + 16 := by
    simp [aeadSeal, hct, htag]
  have hsub : (aeadSeal key nonce pt).length - 16 = (aeadMask key nonce 0 pt).length := by
    omega
  have htake : (aeadSeal key nonce pt).take ((aeadSeal key nonce pt).length - 16) =
      aeadMask key nonce 0 pt := by
    rw [hsub]
    exact List.take_left _ _
  have hdrop : (aeadSeal key nonce pt).drop ((aeadSeal key nonce pt).length - 16) =
      aeadTag key nonce (aeadMask key nonce 0 pt) := by
    rw [hsub]
    exact List.drop_left _ _
  unfold aeadOpen
  rw [if_neg (by omega)]
  simp only [aeadSeal] at htake hdrop ⊢
  rw [htake, hdrop, if_pos rfl, aeadMask_involutive]

theorem decrypt_encrypt (pt key nonce c : List Nat)
    (hk : key.length = 32) (hn : nonce.length = 12)
    (he : encrypt pt key nonce = .ok c) :
    decrypt c key = .ok pt := by
  have hc : c = nonce ++ aeadSeal key nonce pt := by
    unfold encrypt at he
    rw [if_neg (by omega)] at he
    cases he
    rfl
  subst hc
  have hlen : (nonce ++ aeadSeal key nonce pt).length ≥ 12 := by
    simp [hn]
  unfold decrypt
  rw [if_neg (by omega), if_neg (by omega)]
  rw [List.take_left' hn, List.drop_left' hn, aeadOpen_aeadSeal]

/-- C1 (core round-trip): with a 32-byte key and the 12-byte nonce drawn
by `encrypt`, decryption of the encryption output recovers the exact
plaintext. -/
theorem decrypt_encrypt_roundtrip (pt key nonce c : List Nat)
    (hk : key.length = 32) (hn : nonce.length = 12)
    (he : encrypt pt key nonce = .ok c) :
    decrypt c key = .ok pt :=
  decrypt_encrypt pt key nonce c hk hn he

/-- Witness for C1: the round-trip theorem applied to the concrete
plaintext `[1, 2, 3]` under the all-zero key and nonce. -/
theorem decrypt_encrypt_roundtrip_witness :
    decrypt (wNonce ++ aeadSeal wKey wNonce [1, 2, 3]) wKey = .ok [1, 2, 3] :=
  decrypt_encrypt_roundtrip [1, 2, 3] wKey wNonce
    (wNonce ++ aeadSeal wKey wNonce [1, 2, 3]) (by decide) (by decide) (by decide)

/-- C2 (code bug evidence): `decrypt` panics, instead of returning a
`CryptoError`, on inputs shorter than the 12-byte nonce prefix, because
`data.split_at(12)` is called unconditionally; inputs of 12 to 27 bytes
do fail with the error as specified. -/
theorem decrypt_short_input_panics :
    decrypt [] wKey = .panicked ∧
    decrypt (List.replicate 11 0) wKey = .panicked ∧
    decrypt (List.replicate 27 0) wKey = .err "Decryption error" := by
  decide

/-! ## UTF-8 model

Modelled from the spec: `String::as_bytes` and `String::from_utf8` come
from the Rust standard library, not from this repository.  Encoding is
modelled as the list of character code points; decoding checks that every
number is a valid Unicode scalar value and can fail, as `from_utf8`
can. -/

theorem utf8Decode_utf8Encode (s : String) : utf8Decode (utf8Encode s) = some s := by
  have hall : (utf8Encode s).all (fun b => decide (Nat.isValidChar b)) = true := by
    simp only [utf8Encode, List.all_eq_true]
    intro b hb
    obtain ⟨c, _, rfl⟩ := List.mem_map.mp hb
    exact decide_eq_true c.valid
  rw [utf8Decode, if_pos hall]
  have hmap : (utf8Encode s).map Char.ofNat = s.data := by
    simp only [utf8Encode, List.map_map]
    have hid : (Char.ofNat ∘ Char.toNat) = (id : Char → Char) := by
      funext c
      exact Char.ofNat_toNat c
    rw [hid, List.map_id]
  rw [hmap]

/-! ## `src/src/core/store.rs`: data model -/

theorem deserializeStore_serializeStore (st : SecretsStore) :
    deserializeStore (serializeStore st) = some st.secrets := by
  simp [serializeStore, deserializeStore, Encodable.encodek]

/-! ### Filesystem model -/

theorem assocLookup_cons {α : Type} (k : String) (x : α) (l : List (String × α))
    (name : String) :
    assocLookup ((k, x) :: l) name = if k = name then some x else assocLookup l name := by
  by_cases h : k = name
  · simp [assocLookup, List.find?, h]
  · simp [assocLookup, List.find?, h]

theorem assocLookup_eq_none {α : Type} (l : List (String × α)) (k : String)
    (h : k ∉ l.map Prod.fst) : assocLookup l k = none := by
  induction l with
  | nil => rfl
  | cons p rest ih =>
    obtain ⟨k0, v0⟩ := p
    rw [assocLookup_cons]
    simp only [List.map_cons, List.mem_cons] at h
    push_neg at h
    rw [if_neg (Ne.symm h.1), ih h.2]

theorem assocLookup_filter_ne {α : Type} (l : List (String × α)) (k name : String)
    (h : ¬ k = name) :
    assocLookup (l.filter (fun p => decide (p.1 ≠ k))) name = assocLookup l name := by
  induction l with
  | nil => rfl
  | cons p rest ih =>
    obtain ⟨k0, v0⟩ := p
    rw [List.filter_cons]
    by_cases hk0 : k0 = k
    · subst hk0
      rw [if_neg (by simp)]
      rw [ih, assocLookup_cons, if_neg h]
    · rw [if_pos (by simp [hk0])]
      rw [assocLookup_cons, assocLookup_cons, ih]

theorem assocLookup_insert {α : Type} (m : List (String × α)) (k : String) (v : α)
    (name : String) :
    assocLookup (assocInsert m k v) name =
      if k = name then some v else assocLookup m name := by
  rw [assocInsert, assocLookup_cons]
  by_cases h : k = name
  · rw [if_pos h, if_pos h]
  · rw [if_neg h, if_neg h, assocLookup_filter_ne _ _ _ h]

theorem assocRemove_eq_self {α : Type} (l : List (String × α)) (k : String)
    (h : assocLookup l k = none) : assocRemove l k = l := by
  induction l with
  | nil => rfl
  | cons p rest ih =>
    obtain ⟨k0, v0⟩ := p
    rw [assocLookup_cons] at h
    by_cases hk : k0 = k
    · rw [if_pos hk] at h
      exact absurd h (by simp)
    · rw [if_neg hk] at h
      rw [assocRemove, List.filter_cons, if_pos (by simp [hk])]
      have h2 := ih h
      rw [assocRemove] at h2
      rw [h2]

/-! ## C4: expiry views -/

/-- C4 (counterexample): for a secret expiring one second before `now`,
`days_until_expiration` is `0`, not the floor division `-1` the claim
states, because Rust i64 division truncates toward zero. -/
theorem daysUntilExpiration_not_floor :
    ¬ (Secret.daysUntilExpiration ⟨"A", [], some 999⟩ 1000 =
        some (Int.fdiv (999 - 1000) 86400)) := by
  decide

/-- C4 (amended): `is_expired` holds exactly when an expiry is present
and strictly below the current time, and `days_until_expiration` is the
truncating (round-toward-zero) division of `expires_at - now` by 86400,
`none` when no expiry is set. -/
theorem secret_expiry_views (s : Secret) (now : Int) :
    (s.isExpired now = true ↔ ∃ e, s.expiresAt = some e ∧ e < now) ∧
    s.daysUntilExpiration now = s.expiresAt.map (fun e => Int.tdiv (e - now) 86400) := by
  constructor
  · cases he : s.expiresAt with
    | none => simp [Secret.isExpired, he]
    | some e => simp [Secret.isExpired, he]
  · cases he : s.expiresAt with
    | none => simp [Secret.daysUntilExpiration, he]
    | some e => simp [Secret.daysUntilExpiration, he]

/-! ## C5: save/load round-trip of the store -/

theorem storeLoad_after_storeSave (st : SecretsStore) (dir : String)
    (key nonce : List Nat) (hk : key.length = 32) (hn : nonce.length = 12)
    (fs fs2 : Fs) (hsave : storeSave st dir key nonce fs = .ok fs2) :
    (storeLoad fs2 dir key).1 = .ok ⟨st.secrets, some (sjPath dir)⟩ := by
  have henc : encrypt (serializeStore st) key nonce =
      .ok (nonce ++ aeadSeal key nonce (serializeStore st)) := by
    unfold encrypt
    rw [if_neg (by omega)]
  rw [storeSave, henc] at hsave
  cases hsave
  have hdec := decrypt_encrypt (serializeStore st) key nonce
    (nonce ++ aeadSeal key nonce (serializeStore st)) hk hn (by rw [henc])
  simp only [storeLoad, Fs.write, eq_self_iff_true, if_true]
  rw [hdec]
  simp [deserializeStore_serializeStore]

/-- C5: starting from the empty store, any sequence of add/delete
operations followed by a save and a fresh load with the same key yields
exactly the saved name-to-Secret mapping. -/
theorem store_ops_save_load_roundtrip (dir : String) (key : List Nat)
    (ops : List StoreOp) (fs0 : Fs) (st : SecretsStore) (fs1 : Fs)
    (nonce : List Nat) (hk : key.length = 32) (hn : nonce.length = 12)
    (_hops : applyOps dir key (SecretsStore.new, fs0) ops = .ok (st, fs1))
    (fs2 : Fs) (hsave : storeSave st dir key nonce fs1 = .ok fs2) :
    (storeLoad fs2 dir key).1 = .ok ⟨st.secrets, some (sjPath dir)⟩ :=
  storeLoad_after_storeSave st dir key nonce hk hn fs1 fs2 hsave

/-- Witness for C5: the empty operation sequence on an empty filesystem;
the load after the final save returns the empty mapping. -/
theorem store_ops_save_load_roundtrip_witness :
    (storeLoad
      (Fs.write (fun _ => none) (sjPath "d")
        (wNonce ++ aeadSeal wKey wNonce (serializeStore SecretsStore.new)))
      "d" wKey).1 = .ok ⟨SecretsStore.new.secrets, some (sjPath "d")⟩ :=
  store_ops_save_load_roundtrip "d" wKey [] (fun _ => none) SecretsStore.new
    (fun _ => none) wNonce (by decide) (by decide) rfl
    (Fs.write (fun _ => none) (sjPath "d")
      (wNonce ++ aeadSeal wKey wNonce (serializeStore SecretsStore.new)))
    rfl

/-! ## C10: deleting an absent name -/

/-- C10: `delete_secret` on a name that is not in the store succeeds
with no not-found error, leaves the mapping (and the whole store value)
unchanged, and still rewrites `dir/secrets.json` with a fresh
ciphertext of the store. -/
theorem deleteSecret_absent (st : SecretsStore) (name dir : String)
    (key nonce : List Nat) (fs : Fs) (hk : key.length = 32)
    (habs : assocLookup st.secrets name = none) :
    deleteSecret st name dir key nonce fs =
      .ok (st, Fs.write fs (sjPath dir)
        (nonce ++ aeadSeal key nonce (serializeStore st))) := by
  have hrm : assocRemove st.secrets name = st.secrets :=
    assocRemove_eq_self st.secrets name habs
  have hst : (⟨assocRemove st.secrets name, st.path⟩ : SecretsStore) = st := by
    rw [hrm]
  rw [deleteSecret, hst, storeSave]
  rw [encrypt, if_neg (by omega)]
  rfl

/-- Witness for C10: deleting the absent name "B" from a store holding
only "A". -/
theorem deleteSecret_absent_witness :
    deleteSecret ⟨[("A", ⟨"A", [], none⟩)], none⟩ "B" "d" wKey wNonce (fun _ => none) =
      .ok (⟨[("A", ⟨"A", [], none⟩)], none⟩,
        Fs.write (fun _ => none) (sjPath "d")
          (wNonce ++ aeadSeal wKey wNonce
            (serializeStore ⟨[("A", ⟨"A", [], none⟩)], none⟩))) :=
  deleteSecret_absent ⟨[("A", ⟨"A", [], none⟩)], none⟩ "B" "d" wKey wNonce
    (fun _ => none) (by decide) (by decide)

/-! ## `src/src/core/agent.rs` -/

/-- C6: once the current time is strictly past `started_at + ttl`, every
request — ping, list, get_secrets, get_secret or shutdown — is answered
with the error envelope "Session expired" and sets `should_stop`; no
ok response is produced. -/
theorem expired_session_rejects_all (req : AgentRequest) (st : AgentState)
    (now : Nat) (h : st.startedAt + st.ttlHours * 3600 < now) :
    processRequest req st now =
      (.ok (.error "Session expired"), { st with shouldStop := true }) := by
  have hc : now - st.startedAt > st.ttlHours * 3600 := by omega
  rw [processRequest.eq_def, if_pos hc]

/-- Witness for C6: a ping one second after an 8-hour TTL elapses. -/
theorem expired_session_rejects_all_witness :
    processRequest .ping ⟨wKey, SecretsStore.new, 0, 8, false⟩ 28801 =
      (.ok (.error "Session expired"), ⟨wKey, SecretsStore.new, 0, 8, true⟩) :=
  expired_session_rejects_all .ping ⟨wKey, SecretsStore.new, 0, 8, false⟩ 28801
    (by decide)

/-! ## C7: the agent request handler is read-only -/

/-- C7: processing any request leaves the key, the store mapping, the
start instant and the TTL untouched; the state after differs from the
state before at most in `should_stop`.  The handler has no access to
the filesystem at all (see `processRequest`), so it never writes the
store file. -/
theorem processRequest_readonly (req : AgentRequest) (st : AgentState) (now : Nat) :
    (processRequest req st now).2.key = st.key ∧
    (processRequest req st now).2.store = st.store ∧
    (processRequest req st now).2.startedAt = st.startedAt ∧
    (processRequest req st now).2.ttlHours = st.ttlHours := by
  rw [processRequest.eq_def]
  by_cases h : now - st.startedAt > st.ttlHours * 3600
  · rw [if_pos h]
    exact ⟨rfl, rfl, rfl, rfl⟩
  · rw [if_neg h]
    cases req with
    | ping => exact ⟨rfl, rfl, rfl, rfl⟩
    | getSecrets =>
      cases decryptAll st.store st.key <;> exact ⟨rfl, rfl, rfl, rfl⟩
    | getSecret name =>
      cases hda : decryptAll st.store st.key with
      | ok m => cases assocLookup m name <;> exact ⟨rfl, rfl, rfl, rfl⟩
      | err e => exact ⟨rfl, rfl, rfl, rfl⟩
      | panicked => exact ⟨rfl, rfl, rfl, rfl⟩
    | list => exact ⟨rfl, rfl, rfl, rfl⟩
    | shutdown => exact ⟨rfl, rfl, rfl, rfl⟩

/-! ## C8: agent `get_secret` versus `decrypt_one` -/

/-- How `decrypt_all` relates to per-entry decryption: when the loop
returns a map, looking a name up in it finds the decryption of the entry
stored under that name, falling back to the accumulator for absent
names. -/
theorem decryptAllGo_lookup (key : List Nat) :
    ∀ (l : List (String × Secret)) (acc m : List (String × String)),
      (∀ p ∈ l, (p.2).name = p.1) → (l.map Prod.fst).Nodup →
      decryptAllGo key acc l = .ok m → ∀ name,
      assocLookup m name =
        match assocLookup l name with
        | some sec =>
          match decryptValue sec key with
          | .ok v => some v
          | .err _ => none
          | .panicked => none
        | none => assocLookup acc name
  | [], acc, m, _, _, h, name => by
    cases h
    rfl
  | (k0, sec0) :: rest, acc, m, hnames, hnd, h, name => by
    have hname0 : sec0.name = k0 := hnames (k0, sec0) (List.mem_cons_self _ _)
    have hnames' : ∀ p ∈ rest, (p.2).name = p.1 :=
      fun p hp => hnames p (List.mem_cons_of_mem _ hp)
    have hnd' : (rest.map Prod.fst).Nodup := by
      simp only [List.map_cons, List.nodup_cons] at hnd
      exact hnd.2
    have hk0notin : k0 ∉ rest.map Prod.fst := by
      simp only [List.map_cons, List.nodup_cons] at hnd
      exact hnd.1
    rw [decryptAllGo] at h
    cases hdv : decryptValue sec0 key with
    | err e =>
      rw [hdv] at h
      exact absurd h (by simp [Outcome.bind])
    | panicked =>
      rw [hdv] at h
      exact absurd h (by simp [Outcome.bind])
    | ok v0 =>
      rw [hdv] at h
      simp only [Outcome.bind] at h
      have ih := decryptAllGo_lookup key rest (assocInsert acc sec0.name v0) m
        hnames' hnd' h name
      rw [assocLookup_cons]
      by_cases hkn : k0 = name
      · subst hkn
        rw [if_pos rfl]
        have hrest : assocLookup rest k0 = none := assocLookup_eq_none rest k0 hk0notin
        rw [ih, hrest]
        simp [hdv, assocLookup_insert, hname0]
      · rw [if_neg hkn, ih]
        cases hr : assocLookup rest name with
        | some sec => rfl
        | none => simp [assocLookup_insert, hname0, hkn]

/-- C8 (amended): within the TTL, whenever decrypting the whole store
succeeds, the agent answer to `get_secret{name}` is ok with exactly the
string `decrypt_one` returns, and is an error exactly when `decrypt_one`
fails.  (When some other entry of the store fails to decrypt, the agent
instead errors even though `decrypt_one(name, key)` succeeds, because
the handler calls `decrypt_all` and then looks the name up — see the
counterexample.) -/
theorem agent_getSecret_matches_decryptOne (st : AgentState) (now : Nat)
    (name v : String)
    (httl : ¬ now - st.startedAt > st.ttlHours * 3600)
    (hnames : ∀ p ∈ st.store.secrets, (p.2).name = p.1)
    (hnd : (st.store.secrets.map Prod.fst).Nodup)
    (m : List (String × String))
    (hall : decryptAll st.store st.key = .ok m) :
    (processRequest (.getSecret name) st now).1 = .ok (.ok (.valueData v)) ↔
      decryptSecret st.store name st.key = .ok v := by
  have hlk := decryptAllGo_lookup st.key st.store.secrets [] m hnames hnd hall name
  rw [processRequest.eq_def, if_neg httl]
  rw [decryptSecret]
  cases hs : assocLookup st.store.secrets name with
  | none =>
    have hmn : assocLookup m name = none := by
      rw [hlk, hs]
      exact rfl
    simp [hall, hmn]
  | some sec =>
    cases hdv : decryptValue sec st.key with
    | ok v0 =>
      have hmv : assocLookup m name = some v0 := by
        rw [hlk, hs]
        simp [hdv]
      simp [hall, hmv, hdv]
    | err e =>
      have hmv : assocLookup m name = none := by
        rw [hlk, hs]
        simp [hdv]
      simp [hall, hmv, hdv]
    | panicked =>
      have hmv : assocLookup m name = none := by
        rw [hlk, hs]
        simp [hdv]
      simp [hall, hmv, hdv]

/-- C8 (counterexample): on `cStore`, `decrypt_one("A", key)` succeeds
with "x", yet the agent answers `get_secret{A}` with an error, because
it decrypts the whole store first and entry "B" fails.  So the agent
response is not exactly `store.decrypt_one(name, key)`. -/
theorem agent_getSecret_not_decryptOne :
    decryptSecret cStore "A" wKey = .ok "x" ∧
    (processRequest (.getSecret "A") cAgent 0).1 =
      .ok (.error "Decryption error: Decryption error") := by
  decide

/-- Witness for the amended C8: on a store whose every entry decrypts,
the agent answer to `get_secret{A}` is ok with exactly the value
`decrypt_one` returns. -/
theorem agent_getSecret_matches_decryptOne_witness :
    (processRequest (.getSecret "A") wAgentGood 0).1 = .ok (.ok (.valueData "x")) :=
  (agent_getSecret_matches_decryptOne wAgentGood 0 "A" "x" (by decide)
    (by decide) (by decide) [("A", "x")] (by decide)).mpr (by decide)

/-! ## `src/src/core/init.rs`: key derivation and locker open

The Argon2 password hashing, verification, and salt codec come from the
external `argon2` crate.  Modelled from the spec: they are abstracted as
a bundle of functions; `verify` is the constant-time passphrase check
against the stored PHC hash string. -/

theorem append_ne_of_suffix_ne (dir s t : String) (h : ¬ s = t) :
    ¬ (dir ++ s = dir ++ t) := by
  intro he
  apply h
  have : (dir ++ s).data = (dir ++ t).data := by rw [he]
  rw [String.data_append, String.data_append] at this
  have h2 := List.append_cancel_left this
  cases s
  cases t
  exact congrArg String.mk h2

/-- C3: opening an already-initialized locker (salt and hash present and
well-formed) with a passphrase the verifier rejects fails with the
`InvalidPassphrase` error, and the only files read are `salt` and
`hash` — `secrets.json` is never read, let alone decrypted. -/
theorem wrong_passphrase_rejected_before_store_read (a : Argon2Model)
    (fs : Fs) (dir name pass freshSalt : String) (now : Int)
    (saltB hashB : List Nat) (saltS hashS salt expectedHash : String)
    (hsf : fs (saltPath dir) = some saltB)
    (hsd : utf8Decode saltB = some saltS)
    (hsp : a.parseSalt saltS = some salt)
    (hhf : fs (hashPath dir) = some hashB)
    (hhd : utf8Decode hashB = some hashS)
    (hhp : a.parseHash hashS = some expectedHash)
    (hv : a.verify pass expectedHash = false) :
    cmdTokenGet a fs dir name pass freshSalt now =
      (.err "Incorrect passphrase", fs, [saltPath dir, hashPath dir]) ∧
    sjPath dir ∉ [saltPath dir, hashPath dir] := by
  constructor
  · have hload : loadKey a fs dir pass =
        (.err "Incorrect passphrase", [saltPath dir, hashPath dir]) := by
      simp [loadKey, readToString, hsf, hsd, hsp, hhf, hhd, hhp, hv]
    rw [cmdTokenGet, initOrLoadWithPassphrase, hsf]
    simp only [Option.isSome_some, if_true]
    rw [hload]
  · intro hmem
    rcases List.mem_cons.mp hmem with h1 | h2
    · exact append_ne_of_suffix_ne dir _ _ (by decide) h1
    · rcases List.mem_cons.mp h2 with h3 | h4
      · exact append_ne_of_suffix_ne dir _ _ (by decide) h3
      · exact absurd h4 (List.not_mem_nil _)

/-- Witness for C3: with the rejecting verifier, `token get` fails with
the passphrase error after reading only `salt` and `hash`. -/
theorem wrong_passphrase_rejected_witness :
    cmdTokenGet wArgon2 wLockerFs "d" "A" "p" "s" 0 =
      (.err "Incorrect passphrase", wLockerFs, [saltPath "d", hashPath "d"]) ∧
    sjPath "d" ∉ [saltPath "d", hashPath "d"] :=
  wrong_passphrase_rejected_before_store_read wArgon2 wLockerFs "d" "A" "p" "s" 0
    (utf8Encode "salt") (utf8Encode "hash") "salt" "hash" "salt" "hash"
    (by decide) (utf8Decode_utf8Encode "salt") (by decide)
    (by decide) (utf8Decode_utf8Encode "hash") (by decide) (by decide)

/-! ## `src/src/core/cli.rs`: the .env import parser -/

/-- C9 (code bug evidence): on the input `A="`, whose value after
trimming is a single double-quote character, the parser panics at the
slice `value[1..value.len()-1]` instead of returning a mapping; a
well-formed input parses as the rules state (comment skipped, quotes
stripped). -/
theorem parseEnvFormat_lone_quote_panics :
    parseEnvFormat "A=\"" = .panicked ∧
    parseEnvFormat "A=1\n#c\nB=\"t\"\n" = .ok [("B", "t"), ("A", "1")] := by
  decide

end LazyLocker
